import Mathlib

/- Shallow embedding of src/fixedstring.h and src/rack.h of the quackle
repository.  A `FixedLengthString` keeps its characters in a fixed array
`char m_data[maxSize]` together with a cursor `char* m_end` pointing just
past the logical content.  We model the array as a total function
`Nat → Char` (cells at indices at least `maxSize` do not exist physically
and are never read by the modelled operations) and the cursor as the
natural number `len = m_end - m_data`.  A C++ operation that can abort
the process (via `quackle_fls_abort` or a failed `assert`) is modelled as
returning `Option`: `none` is the fatal outcome, `some` the normal one. -/

namespace Quackle

/-- FIXED_STRING_MAXIMUM_LENGTH, fixedstring.h line 40; `maxSize` line 84. -/
def maxSize : Nat := 40

/-- QUACKLE_FIXEDSTRING_CAPACITY, fixedstring.h line 28: the separately
configured conservative ceiling used by the copy constructor and copy
assignment. -/
def fixedstringCapacity : Nat := 64

/-- The `'\0'` terminator written by the "Add null terminator" lines. -/
def charZero : Char := Char.ofNat 0

/-- State of a `FixedLengthString`: the cell array `m_data` and the cursor
offset `len = m_end - m_data`. -/
structure FLS where
  data : Nat → Char
  len : Nat

/-- Pointwise array store: `d` with cell `i` set to `c`. -/
def writeAt (d : Nat → Char) (i : Nat) (c : Char) : Nat → Char :=
  fun j => if j = i then c else d j

/-- `FixedLengthString::length` (fixedstring.h lines 271-282): recomputes the
length from the cursor and aborts when it is negative, exceeds `maxSize`, or
the cursor lies outside the backing array.  With the cursor offset a `Nat`,
all of those checks collapse to `len ≤ maxSize`. -/
def FLS.length (x : FLS) : Option Nat :=
  if x.len ≤ maxSize then some x.len else none

/-- The const overload `FixedLengthString::end() const` (lines 240-250):
performs the same corruption check as `length()` before returning the
cursor (represented here by its offset from `m_data`). -/
def FLS.endConst (x : FLS) : Option Nat :=
  if x.len ≤ maxSize then some x.len else none

/-- The non-const overload `FixedLengthString::end()` (lines 258-262):
returns the cursor with no check at all. -/
def FLS.endMut (x : FLS) : Nat :=
  x.len

/-- Default constructor (lines 117-123): `memset(m_data, 0, maxSize)` and
`m_end = m_data`. -/
def emptyFLS : FLS :=
  { data := fun _ => charZero, len := 0 }

/-- `FixedLengthString(const char* s, size_type n)` (lines 125-135):
`assert(n < maxSize)`, zero the buffer, copy `n` characters of `s`,
set the cursor past them and write the terminator (already zero). -/
def fromSeq (s : List Char) (n : Nat) : Option FLS :=
  if n < maxSize then
    some { data := fun i => if i < n then s.getD i charZero else charZero
           len := n }
  else none

/-- `FixedLengthString(size_type n, char c)` (lines 137-149):
`assert(n < maxSize)`, zero the buffer, write `c` into cells `[0, n)`
advancing the cursor, terminator after. -/
def fromRepeat (n : Nat) (c : Char) : Option FLS :=
  if n < maxSize then
    some { data := fun i => if i < n then c else charZero
           len := n }
  else none

/-- Copy constructor (lines 164-184): `len = s.size()` (which runs the
`length()` corruption check), abort when `len < 0`, `len > maxSize` or
`len > QUACKLE_FIXEDSTRING_CAPACITY`, then zero the buffer, copy `len`
cells and write the terminator. -/
def copyCtor (s : FLS) : Option FLS :=
  match FLS.length s with
  | none => none
  | some len =>
    if maxSize < len ∨ fixedstringCapacity < len then none
    else some { data := fun i => if i < len then s.data i else charZero
                len := len }

/-- Move constructor (lines 186-196): `sz = s.size()` (which runs the
`length()` corruption check), zero the buffer, copy `sz` cells, write the
terminator.  The source is only read, never written. -/
def moveCtor (s : FLS) : Option FLS :=
  match FLS.length s with
  | none => none
  | some sz =>
    some { data := fun i => if i < sz then s.data i else charZero
           len := sz }

/-- Copy assignment `operator=` (lines 198-232): same validation and copy as
the copy constructor, followed by a cursor-validity post-check that always
passes (the cursor was just set to `m_data + len` with `len ≤ maxSize`).
The previous contents of the target are overwritten wholesale, so the model
takes only the source. -/
def assign (s : FLS) : Option FLS :=
  match FLS.length s with
  | none => none
  | some len =>
    if maxSize < len ∨ fixedstringCapacity < len then none
    else if maxSize < len then none
    else some { data := fun i => if i < len then s.data i else charZero
                len := len }

/-- `clear` (line 71): `m_end = m_data`, nothing else; the cells keep their
old contents. -/
def FLS.clear (x : FLS) : FLS :=
  { x with len := 0 }

/-- `operator+=(char c)` (lines 297-312): `assert(size() < maxSize - 1)`
(where `size()` runs the `length()` corruption check), then
`*m_end++ = c`, `*m_end = '\0'`, then a post-check that the advanced
cursor still lies inside the array (`m_end > m_data + maxSize` aborts,
i.e. `maxSize < len + 1`). -/
def plusEqChar (x : FLS) (c : Char) : Option FLS :=
  match FLS.length x with
  | none => none
  | some sz =>
    if sz < maxSize - 1 then
      if maxSize < x.len + 1 then none
      else some { data := writeAt (writeAt x.data x.len c) (x.len + 1) charZero
                  len := x.len + 1 }
    else none

/-- `operator+=(const FixedLengthString&)` (lines 314-324): `sz = s.size()`
(corruption check on the argument), `assert(size() + sz < maxSize)`
(corruption check on the target), `memcpy(m_end, s.m_data, sz)`,
advance the cursor, write the terminator. -/
def plusEqStr (x s : FLS) : Option FLS :=
  match FLS.length s with
  | none => none
  | some sz =>
    match FLS.length x with
    | none => none
    | some len =>
      if len + sz < maxSize then
        some { data := fun j =>
                 if len ≤ j ∧ j < len + sz then s.data (j - len)
                 else if j = len + sz then charZero
                 else x.data j
               len := len + sz }
      else none

/-- `push_back` (lines 326-343): abort when `m_end - m_data < 0` or
`m_end - m_data >= maxSize` (for a `Nat` offset: `maxSize ≤ len`), then a
cursor-validity check subsumed by the first one, then delegate to
`operator+=(char)`. -/
def push_back (x : FLS) (c : Char) : Option FLS :=
  if x.len < maxSize then plusEqChar x c else none

/-- `pop_back` (lines 345-358): `assert(size() > 0)` (with `size()` running
the `length()` corruption check), a cursor-validity check subsumed by it,
then `m_end--`.  No terminator is written. -/
def pop_back (x : FLS) : Option FLS :=
  match FLS.length x with
  | none => none
  | some sz =>
    if 0 < sz then some { x with len := x.len - 1 } else none

/-- `erase(iterator i)` (lines 264-269) at cursor offset `p`:
`memmove(i, i+1, m_end - i)` copies the `len - p` cells at offsets
`[p+1, len]` down to `[p, len)` (the cell at offset `len`, the old
terminator, lands at offset `len - 1`), then `--m_end`. -/
def FLS.erase (x : FLS) (p : Nat) : FLS :=
  { data := fun j => if p ≤ j ∧ j < x.len then x.data (j + 1) else x.data j
    len := x.len - 1 }

/-- The logical content of the buffer: the cells at indices `[0, len)`. -/
def content (x : FLS) : List Char :=
  (List.range x.len).map x.data

/-- Invariant I2 of the spec: the cell at index `length` holds the
terminator. -/
def sentinelOK (x : FLS) : Prop :=
  x.data x.len = charZero

instance (x : FLS) : Decidable (sentinelOK x) := by
  unfold sentinelOK; infer_instance

end Quackle

namespace Quackle

/-- The loop of `FixedLengthString::compare` (lines 360-379), phrased as
structural recursion over the two content lists: scan the shared prefix for
the first differing cell; if none differs, the shorter operand sorts first
and equal lengths compare equal. -/
def cmpList : List Char → List Char → Int
  | [], [] => 0
  | [], _ :: _ => -1
  | _ :: _, [] => 1
  | a :: as, b :: bs =>
    if a < b then -1
    else if b < a then 1
    else cmpList as bs

/-- `FixedLengthString::compare` (lines 360-379): `size1 = size()` and
`size2 = s.size()` both run the `length()` corruption check; then the
prefix scan and length tie-break above. -/
def FLS.compare (a b : FLS) : Option Int :=
  match FLS.length a, FLS.length b with
  | some _, some _ => some (cmpList (content a) (content b))
  | _, _ => none

/-- Derived `operator<` (lines 381-385). -/
def ltOp (a b : FLS) : Option Bool :=
  (FLS.compare a b).map (fun v => decide (v < 0))

/-- Derived `operator==` (lines 390-394). -/
def eqOp (a b : FLS) : Option Bool :=
  (FLS.compare a b).map (fun v => decide (v = 0))

/-- Derived `operator!=` (lines 396-400). -/
def neOp (a b : FLS) : Option Bool :=
  (FLS.compare a b).map (fun v => decide (v ≠ 0))

/-- A corrupted state: the cursor sits 41 cells past the array base,
outside the 40-cell backing array. -/
def corrupt41 : FLS :=
  { data := fun _ => charZero, len := 41 }

/-- A full valid buffer: 39 content cells, terminator in the last cell. -/
def full39 : FLS :=
  { data := fun i => if i < 39 then 'z' else charZero, len := 39 }

/-- Letter codes of the alphabet collaborator.  Modelled from the spec:
`alphabetparameters.h` is not under src/; the spec only requires domain
tile identifiers with "one reserved value" for the wildcard/blank tile. -/
abbrev Letter := Nat

/-- Modelled from the spec: the reserved wildcard/blank letter code. -/
def blankLetter : Letter := 0

namespace Rack

/-- Modelled from the spec: one matching step of `Rack::unload` /
`Rack::contains` (rack.cpp is not under src/; rack.h lines 66-74 only
declare them).  Spec section 4.2: a rack tile matches the requested letter
if it is an exact match or the blank; "consume the first available exact
match and only fall back to a blank if no exact match remains among
unconsumed tiles", with the leftmost-in-rack, first-unconsumed tie-break
of section 9.  Returns the remaining tiles, or `none` when no tile
matches. -/
def takeTile (rack : List Letter) (l : Letter) : Option (List Letter) :=
  if l ∈ rack then some (rack.erase l)
  else if blankLetter ∈ rack then some (rack.erase blankLetter)
  else none

/-- Modelled from the spec: `Rack::unload(used)` (rack.h lines 66-69,
body in rack.cpp, not under src/).  Iterates the requested letters in
order, consuming one matching tile each (exact first, blank fallback);
returns the remaining tiles, or `none` when some requested letter finds
no match (the success/failure boolean of the C++ signature is the
`isSome` of this result; the spec leaves the rack state on failure as an
open policy choice, section 9). -/
def unload : List Letter → List Letter → Option (List Letter)
  | rack, [] => some rack
  | rack, l :: rest =>
    match takeTile rack l with
    | some r => unload r rest
    | none => none

/-- Modelled from the spec: `Rack::load(tiles)` (rack.h line 71, body in
rack.cpp, not under src/): "appends every character of `sequence` onto the
rack's buffer". -/
def load (rack tiles : List Letter) : List Letter :=
  rack ++ tiles

/-- Modelled from the spec: `Rack::contains(used)` (rack.h lines 73-74,
body in rack.cpp, not under src/): "same matching rule as `unload` but
purely observational — no mutation", mirroring the greedy first-match
scan. -/
def contains (rack used : List Letter) : Bool :=
  (unload rack used).isSome

/-- `Rack::Rack(Rack&&)` (rack.h lines 107-110) runs
`m_tiles = std::move(other.m_tiles)`; since `FixedLengthString` declares
only the copy assignment `operator=(const FixedLengthString&)`
(fixedstring.h line 82), this binds to copy assignment of the tile
buffer.  The source tiles are only read. -/
def moveCtorTiles (t : FLS) : Option FLS :=
  assign t

/-- `Rack::Rack(const Rack&)` (rack.h lines 99-105): default-initialises
`m_tiles` and then runs `m_tiles = other.m_tiles`, i.e. the same copy
assignment of the tile buffer; the final state is that of the second
assignment. -/
def copyCtorTiles (t : FLS) : Option FLS :=
  assign t

end Rack

end Quackle

namespace Quackle

/-- C1: for every sequence `s` and every `n < maxSize = 40` (with `s` long
enough to supply the copied cells), constructing a FixedLengthString from
`(s, n)` succeeds, `length()` reports exactly `n`, the cells at indices
`[0, n)` are the first `n` characters of `s`, and the terminator sits at
index `n`; for `n ≥ maxSize` the construction fails fatally. -/
theorem C1_construct_from_sequence (s : List Char) (n : Nat) :
    (n < maxSize → n ≤ s.length →
      ∃ x, fromSeq s n = some x ∧ FLS.length x = some n ∧
        content x = s.take n ∧ x.data n = charZero) ∧
    (maxSize ≤ n → fromSeq s n = none) := by
  constructor
  · intro hn hs
    refine ⟨{ data := fun i => if i < n then s.getD i charZero else charZero
              len := n }, ?_, ?_, ?_, by simp⟩
    · simp [fromSeq, hn]
    · simp [FLS.length, Nat.le_of_lt hn]
    · apply List.ext_getElem
      · simp [content, Nat.min_eq_left hs]
      · intro i h1 h2
        simp only [content] at h1 ⊢
        simp only [List.length_map, List.length_range] at h1
        simp [content, h1, List.getD_eq_getElem?_getD,
          List.getElem?_eq_getElem (Nat.lt_of_lt_of_le h1 hs)]
  · intro hn
    simp [fromSeq, Nat.not_lt_of_le hn]

/-- Witness for C1 at `s = ['a','b']`, `n = 2` (success) and `n = 41`
(fatal). -/
theorem C1_construct_from_sequence_witness :
    (∃ x, fromSeq ['a', 'b'] 2 = some x ∧ FLS.length x = some 2 ∧
      content x = (['a', 'b'] : List Char).take 2 ∧ x.data 2 = charZero) ∧
    fromSeq ['a', 'b'] 41 = none :=
  ⟨(C1_construct_from_sequence ['a', 'b'] 2).1 (by decide) (by decide),
   (C1_construct_from_sequence ['a', 'b'] 41).2 (by decide)⟩

/-- Unfolding lemma for the capacity constant. -/
theorem maxSize_eq : maxSize = 40 := rfl

/-- The `length()` check passes on every state whose cursor offset is at
most `maxSize`. -/
theorem length_eq_some {x : FLS} (h : x.len ≤ maxSize) :
    FLS.length x = some x.len := by
  rw [FLS.length, if_pos h]

/-- Successful `operator+=(char)`: with room for the character and the
terminator, the appended state is returned. -/
theorem plusEqChar_spec (x : FLS) (c : Char) (h : x.len < maxSize - 1) :
    plusEqChar x c =
      some { data := writeAt (writeAt x.data x.len c) (x.len + 1) charZero
             len := x.len + 1 } := by
  have hlen : FLS.length x = some x.len :=
    length_eq_some (by rw [maxSize_eq] at h ⊢; omega)
  simp only [plusEqChar, hlen]
  rw [if_pos h, if_neg (by rw [maxSize_eq] at h ⊢; omega)]

/-- Below its own overflow bound, `push_back` is `operator+=(char)`. -/
theorem push_back_eq_plusEqChar (x : FLS) (c : Char) (h : x.len < maxSize) :
    push_back x c = plusEqChar x c := by
  rw [push_back, if_pos h]

/-- The content of the state produced by a successful append. -/
theorem content_append_state (x : FLS) (c : Char) :
    content { data := writeAt (writeAt x.data x.len c) (x.len + 1) charZero
              len := x.len + 1 } = content x ++ [c] := by
  show (List.range (x.len + 1)).map _ = (List.range x.len).map x.data ++ [c]
  rw [List.range_succ, List.map_append]
  congr 1
  · refine List.map_congr_left fun i hi => ?_
    rw [List.mem_range] at hi
    simp [writeAt, Nat.ne_of_lt hi, Nat.ne_of_lt (Nat.lt_succ_of_lt hi)]
  · simp [writeAt]

/-- C2: the sentinel invariant does NOT survive `pop_back` and `clear`.
The class's own documentation (`char* m_end; // points at the terminating
NULL`, fixedstring.h line 89) and the pervasive "CRITICAL FIX: Add null
terminator" discipline say the cell at index `length()` must hold `'\0'`,
but `pop_back` (lines 345-358) only decrements the cursor and `clear`
(line 71) only resets it: after constructing the buffer "AB" and calling
`pop_back`, the cell at index `length() = 1` still holds 'B'; after
`clear`, the cell at index `length() = 0` still holds 'A'. -/
theorem C2_sentinel_pop_back_clear_bug :
    ((fromSeq ['A', 'B'] 2).bind pop_back).map
        (fun x => (x.len, x.data x.len)) = some (1, 'B') ∧
    (fromSeq ['A', 'B'] 2).map
        (fun x => (FLS.clear x).data (FLS.clear x).len) = some 'A' ∧
    'B' ≠ charZero ∧ 'A' ≠ charZero := by
  decide

/-- C3 counterexample: the non-const `end()` performs no corruption check.
On a state whose cursor lies outside the backing array, `length()` and the
const `end()` fail fatally, but the non-const `end()` returns the bad
cursor normally — refuting the claim that every call to `end()` performs
the corruption check. -/
theorem C3_end_unchecked_counterexample :
    FLS.length corrupt41 = none ∧ FLS.endConst corrupt41 = none ∧
    FLS.endMut corrupt41 = 41 ∧ maxSize < 41 := by
  decide

/-- C3 amended: every call to `length()` and to the const `end()` performs
the corruption check (fatal when the derived length exceeds `maxSize`,
which with a `Nat` cursor offset subsumes negativity and the cursor
leaving the array); under the invariant `length ≤ maxSize` that fatal
branch is unreachable and both return normally.  The non-const `end()`
returns the cursor with no check. -/
theorem C3_length_end_checks (x : FLS) :
    (x.len ≤ maxSize → FLS.length x = some x.len ∧ FLS.endConst x = some x.len) ∧
    (maxSize < x.len → FLS.length x = none ∧ FLS.endConst x = none) ∧
    FLS.endMut x = x.len := by
  refine ⟨fun h => ?_, fun h => ?_, rfl⟩
  · simp [FLS.length, FLS.endConst, h]
  · simp [FLS.length, FLS.endConst, Nat.not_le_of_lt h]

/-- Witness for C3 at the empty buffer (valid) and at `corrupt41`. -/
theorem C3_length_end_checks_witness :
    (FLS.length emptyFLS = some emptyFLS.len ∧
      FLS.endConst emptyFLS = some emptyFLS.len) ∧
    (FLS.length corrupt41 = none ∧ FLS.endConst corrupt41 = none) :=
  ⟨(C3_length_end_checks emptyFLS).1 (by decide),
   (C3_length_end_checks corrupt41).2.1 (by decide)⟩

/-- C4: with `length() < maxSize - 1`, both `operator+=(char)` and
`push_back` succeed with the same result: the new character lands at index
`length()`, the length grows by exactly one, and the terminator is
rewritten at the new end.  With `length() ≥ maxSize - 1` both fail
fatally (`push_back`'s own bound check fires at `length() ≥ maxSize`, and
the `assert` in `operator+=` fires at `length() = maxSize - 1`). -/
theorem C4_push_back_appends (x : FLS) (c : Char) :
    (x.len < maxSize - 1 →
      ∃ y, plusEqChar x c = some y ∧ push_back x c = some y ∧
        y.len = x.len + 1 ∧ FLS.length y = some (x.len + 1) ∧
        y.data x.len = c ∧ y.data y.len = charZero ∧
        content y = content x ++ [c]) ∧
    (maxSize - 1 ≤ x.len → plusEqChar x c = none ∧ push_back x c = none) := by
  constructor
  · intro h
    have h39 : x.len < 39 := by rw [maxSize_eq] at h; omega
    have hplus := plusEqChar_spec x c h
    refine ⟨_, hplus, ?_, rfl, ?_, ?_, ?_, content_append_state x c⟩
    · rw [push_back_eq_plusEqChar x c (by rw [maxSize_eq]; omega), hplus]
    · exact length_eq_some (by show x.len + 1 ≤ maxSize; rw [maxSize_eq]; omega)
    · simp [writeAt]
    · simp [writeAt]
  · intro h
    by_cases hx : x.len ≤ maxSize
    · have hlen : FLS.length x = some x.len := by rw [FLS.length, if_pos hx]
      have hp : plusEqChar x c = none := by
        simp only [plusEqChar, hlen]
        rw [if_neg (Nat.not_lt_of_le h)]
      refine ⟨hp, ?_⟩
      by_cases h40 : x.len < maxSize <;> simp [push_back, h40, hp]
    · have hlen : FLS.length x = none := by rw [FLS.length, if_neg hx]
      have hp : plusEqChar x c = none := by simp only [plusEqChar, hlen]
      have h40 : ¬ x.len < maxSize := fun hc => hx (Nat.le_of_lt hc)
      exact ⟨hp, by simp [push_back, h40]⟩

/-- Witness for C4 at the empty buffer (success) and at a buffer of length
`maxSize - 1 = 39` (fatal). -/
theorem C4_push_back_appends_witness :
    (∃ y, plusEqChar emptyFLS 'q' = some y ∧ push_back emptyFLS 'q' = some y ∧
      y.len = emptyFLS.len + 1 ∧ FLS.length y = some (emptyFLS.len + 1) ∧
      y.data emptyFLS.len = 'q' ∧ y.data y.len = charZero ∧
      content y = content emptyFLS ++ ['q']) ∧
    (plusEqChar full39 'q' = none ∧ push_back full39 'q' = none) :=
  ⟨(C4_push_back_appends emptyFLS 'q').1 (by decide),
   (C4_push_back_appends full39 'q').2 (by decide)⟩

/-- The comparison loop returns 0 exactly on equal content lists. -/
theorem cmpList_eq_zero_iff (xs ys : List Char) :
    cmpList xs ys = 0 ↔ xs = ys := by
  induction xs generalizing ys with
  | nil =>
    cases ys with
    | nil => simp [cmpList]
    | cons b bs =>
      rw [cmpList]
      exact ⟨fun hc => absurd hc (by decide), fun hc => by cases hc⟩
  | cons a as ih =>
    cases ys with
    | nil =>
      rw [cmpList]
      exact ⟨fun hc => absurd hc (by decide), fun hc => by cases hc⟩
    | cons b bs =>
      rcases lt_trichotomy a b with h | h | h
      · rw [cmpList, if_pos h]
        refine ⟨fun hc => absurd hc (by decide), fun hc => ?_⟩
        injection hc with h1 h2
        subst h1
        exact absurd h (lt_irrefl a)
      · subst h
        rw [cmpList, if_neg (lt_irrefl a), if_neg (lt_irrefl a), ih bs]
        simp
      · rw [cmpList, if_neg (lt_asymm h), if_pos h]
        refine ⟨fun hc => absurd hc (by decide), fun hc => ?_⟩
        injection hc with h1 h2
        subst h1
        exact absurd h (lt_irrefl a)

/-- The comparison loop returns -1 exactly on lexicographically-smaller
first operand (first differing cell smaller, or proper prefix). -/
theorem cmpList_eq_negOne_iff (xs ys : List Char) :
    cmpList xs ys = -1 ↔ List.Lex (· < ·) xs ys := by
  induction xs generalizing ys with
  | nil =>
    cases ys with
    | nil =>
      rw [cmpList]
      exact ⟨fun hc => absurd hc (by decide),
        fun hc => absurd hc (List.Lex.not_nil_right _ _)⟩
    | cons b bs =>
      rw [cmpList]
      exact ⟨fun _ => List.Lex.nil, fun _ => rfl⟩
  | cons a as ih =>
    cases ys with
    | nil =>
      rw [cmpList]
      exact ⟨fun hc => absurd hc (by decide),
        fun hc => absurd hc (List.Lex.not_nil_right _ _)⟩
    | cons b bs =>
      rcases lt_trichotomy a b with h | h | h
      · rw [cmpList, if_pos h]
        exact ⟨fun _ => List.Lex.rel h, fun _ => rfl⟩
      · subst h
        rw [cmpList, if_neg (lt_irrefl a), if_neg (lt_irrefl a), ih bs]
        exact List.Lex.cons_iff.symm
      · rw [cmpList, if_neg (lt_asymm h), if_pos h]
        refine ⟨fun hc => absurd hc (by decide), fun hc => ?_⟩
        cases hc with
        | cons h' => exact absurd h (lt_irrefl _)
        | rel h' => exact absurd h' (lt_asymm h)

/-- The comparison loop returns 1 exactly on lexicographically-smaller
second operand. -/
theorem cmpList_eq_one_iff (xs ys : List Char) :
    cmpList xs ys = 1 ↔ List.Lex (· < ·) ys xs := by
  induction xs generalizing ys with
  | nil =>
    cases ys with
    | nil =>
      rw [cmpList]
      exact ⟨fun hc => absurd hc (by decide),
        fun hc => absurd hc (List.Lex.not_nil_right _ _)⟩
    | cons b bs =>
      rw [cmpList]
      exact ⟨fun hc => absurd hc (by decide),
        fun hc => absurd hc (List.Lex.not_nil_right _ _)⟩
  | cons a as ih =>
    cases ys with
    | nil =>
      rw [cmpList]
      exact ⟨fun _ => List.Lex.nil, fun _ => rfl⟩
    | cons b bs =>
      rcases lt_trichotomy a b with h | h | h
      · rw [cmpList, if_pos h]
        refine ⟨fun hc => absurd hc (by decide), fun hc => ?_⟩
        cases hc with
        | cons h' => exact absurd h (lt_irrefl _)
        | rel h' => exact absurd h' (lt_asymm h)
      · subst h
        rw [cmpList, if_neg (lt_irrefl a), if_neg (lt_irrefl a), ih bs]
        exact List.Lex.cons_iff.symm
      · rw [cmpList, if_neg (lt_asymm h), if_pos h]
        exact ⟨fun _ => List.Lex.rel h, fun _ => rfl⟩

/-- The comparison loop only ever returns -1, 0 or 1. -/
theorem cmpList_mem (xs ys : List Char) :
    cmpList xs ys = -1 ∨ cmpList xs ys = 0 ∨ cmpList xs ys = 1 := by
  induction xs generalizing ys with
  | nil => cases ys <;> simp [cmpList]
  | cons a as ih =>
    cases ys with
    | nil => simp [cmpList]
    | cons b bs =>
      rw [cmpList]
      split
      · exact Or.inl rfl
      · split
        · exact Or.inr (Or.inr rfl)
        · exact ih bs

/-- The content list determines the length. -/
theorem content_length (x : FLS) : (content x).length = x.len := by
  simp [content]

/-- C5: on valid operands, `compare` returns the lexicographic comparison
over the shared prefix with ties on the shared prefix broken by length
(shorter first, captured by `List.Lex` which orders a proper prefix before
its extensions): it returns 0 exactly on equal length and equal content,
-1 exactly when the first operand is lexicographically smaller, 1 exactly
when the second is; the derived `operator<`, `operator==`, `operator!=`
agree. -/
theorem C5_compare_lexicographic (a b : FLS)
    (ha : a.len ≤ maxSize) (hb : b.len ≤ maxSize) :
    ∃ v, FLS.compare a b = some v ∧
      (v = 0 ↔ a.len = b.len ∧ content a = content b) ∧
      (v = -1 ↔ List.Lex (· < ·) (content a) (content b)) ∧
      (v = 1 ↔ List.Lex (· < ·) (content b) (content a)) ∧
      (ltOp a b = some true ↔ List.Lex (· < ·) (content a) (content b)) ∧
      (eqOp a b = some true ↔ content a = content b) ∧
      (neOp a b = some true ↔ content a ≠ content b) := by
  have hc : FLS.compare a b = some (cmpList (content a) (content b)) := by
    simp only [FLS.compare, length_eq_some ha, length_eq_some hb]
  refine ⟨_, hc, ?_, cmpList_eq_negOne_iff _ _, cmpList_eq_one_iff _ _, ?_, ?_, ?_⟩
  · rw [cmpList_eq_zero_iff]
    refine ⟨fun hcc => ⟨?_, hcc⟩, fun hcc => hcc.2⟩
    have := congrArg List.length hcc
    rwa [content_length, content_length] at this
  · rw [ltOp, hc]
    simp only [Option.map_some', Option.some.injEq, Bool.true_eq, decide_eq_true_eq]
    rw [← cmpList_eq_negOne_iff]
    rcases cmpList_mem (content a) (content b) with h | h | h <;> rw [h] <;> decide
  · rw [eqOp, hc]
    simp only [Option.map_some', Option.some.injEq, Bool.true_eq, decide_eq_true_eq]
    exact cmpList_eq_zero_iff _ _
  · rw [neOp, hc]
    simp only [Option.map_some', Option.some.injEq, Bool.true_eq, decide_eq_true_eq]
    exact not_congr (cmpList_eq_zero_iff _ _)

/-- Witness for C5 at the pair `(full39, emptyFLS)`. -/
theorem C5_compare_lexicographic_witness :
    ∃ v, FLS.compare full39 emptyFLS = some v ∧
      (v = 0 ↔ full39.len = emptyFLS.len ∧ content full39 = content emptyFLS) ∧
      (v = -1 ↔ List.Lex (· < ·) (content full39) (content emptyFLS)) ∧
      (v = 1 ↔ List.Lex (· < ·) (content emptyFLS) (content full39)) ∧
      (ltOp full39 emptyFLS = some true ↔
        List.Lex (· < ·) (content full39) (content emptyFLS)) ∧
      (eqOp full39 emptyFLS = some true ↔ content full39 = content emptyFLS) ∧
      (neOp full39 emptyFLS = some true ↔ content full39 ≠ content emptyFLS) :=
  C5_compare_lexicographic full39 emptyFLS (by decide) (by decide)

/-- C6: on a state with spare capacity, `push_back c` followed by
`pop_back` succeeds and yields a buffer equal to the original under the
derived equality operator. -/
theorem C6_push_then_pop_roundtrip (x : FLS) (c : Char)
    (h : x.len < maxSize - 1) :
    ∃ y z, push_back x c = some y ∧ pop_back y = some z ∧
      eqOp z x = some true := by
  have h39 : x.len < 39 := by rw [maxSize_eq] at h; omega
  refine ⟨{ data := writeAt (writeAt x.data x.len c) (x.len + 1) charZero
            len := x.len + 1 },
          { data := writeAt (writeAt x.data x.len c) (x.len + 1) charZero
            len := x.len },
          ?_, ?_, ?_⟩
  · rw [push_back_eq_plusEqChar x c (by rw [maxSize_eq]; omega)]
    exact plusEqChar_spec x c h
  · have hly : FLS.length
        { data := writeAt (writeAt x.data x.len c) (x.len + 1) charZero
          len := x.len + 1 } = some (x.len + 1) :=
      length_eq_some (by show x.len + 1 ≤ maxSize; rw [maxSize_eq]; omega)
    simp only [pop_back, hly]
    rw [if_pos (Nat.succ_pos _)]
    rfl
  · have hcz : content
        { data := writeAt (writeAt x.data x.len c) (x.len + 1) charZero
          len := x.len } = content x := by
      refine List.map_congr_left fun i hi => ?_
      rw [List.mem_range] at hi
      simp [writeAt, Nat.ne_of_lt hi, Nat.ne_of_lt (Nat.lt_succ_of_lt hi)]
    have hlz : FLS.length
        { data := writeAt (writeAt x.data x.len c) (x.len + 1) charZero
          len := x.len } = some x.len :=
      length_eq_some (by show x.len ≤ maxSize; rw [maxSize_eq]; omega)
    have hcomp : FLS.compare
        { data := writeAt (writeAt x.data x.len c) (x.len + 1) charZero
          len := x.len } x = some 0 := by
      simp only [FLS.compare, hlz,
        length_eq_some (show x.len ≤ maxSize by rw [maxSize_eq]; omega)]
      rw [hcz, (cmpList_eq_zero_iff _ _).mpr rfl]
    rw [eqOp, hcomp]
    simp

/-- Witness for C6 at the empty buffer and character 'a'. -/
theorem C6_push_then_pop_roundtrip_witness :
    ∃ y z, push_back emptyFLS 'a' = some y ∧ pop_back y = some z ∧
      eqOp z emptyFLS = some true :=
  C6_push_then_pop_roundtrip emptyFLS 'a' (by decide)

/-- C7: erasing a valid interior position `p` removes exactly the cell at
index `p`: the length drops by one, the prefix `[0, p)` is untouched, the
remainder shifts left by one, and the resulting content is the original
content with index `p` removed. -/
theorem C7_erase_shifts_left (x : FLS) (p : Nat)
    (hp : p < x.len) (hx : x.len ≤ maxSize) :
    (FLS.erase x p).len = x.len - 1 ∧
    FLS.length (FLS.erase x p) = some (x.len - 1) ∧
    (∀ j, j < p → (FLS.erase x p).data j = x.data j) ∧
    (∀ j, p ≤ j → j < x.len - 1 → (FLS.erase x p).data j = x.data (j + 1)) ∧
    content (FLS.erase x p) = (content x).take p ++ (content x).drop (p + 1) := by
  refine ⟨rfl, ?_, ?_, ?_, ?_⟩
  · exact length_eq_some (by show x.len - 1 ≤ maxSize; omega)
  · intro j hj
    have hcon : ¬ (p ≤ j ∧ j < x.len) := fun hcc => absurd hj (Nat.not_lt_of_le hcc.1)
    simp [FLS.erase, hcon]
  · intro j h1 h2
    have hcon : p ≤ j ∧ j < x.len := ⟨h1, by omega⟩
    simp [FLS.erase, hcon]
  · have hlt : ((content x).take p).length = p := by
      simp [content]
      omega
    apply List.ext_getElem
    · simp [content, FLS.erase]
      omega
    · intro i h1 h2
      have hi : i < x.len - 1 := by simpa [content, FLS.erase] using h1
      by_cases hip : i < p
      · rw [List.getElem_append_left (by rw [hlt]; exact hip)]
        have hcon : ¬ (p ≤ i ∧ i < x.len) := fun hcc => absurd hip (Nat.not_lt_of_le hcc.1)
        simp [content, FLS.erase, hcon]
      · rw [List.getElem_append_right (by rw [hlt]; omega)]
        have hcon : p ≤ i ∧ i < x.len := ⟨Nat.le_of_not_lt hip, by omega⟩
        simp only [content, FLS.erase, List.getElem_map, List.getElem_range,
          List.getElem_drop, if_pos hcon, hlt, List.length_take, List.length_map,
          List.length_range]
        congr 1
        omega

/-- C8: the greedy first-match scan of `contains` (modelled from the spec;
it is observational by construction, the rack argument is not mutated):
a rack holding exactly `{a, blank}` satisfies `contains [a, a]` (exact
match for the first `a`, blank for the second) and `contains [a, b]`;
a rack holding `{blank, blank}` satisfies `contains` for any two-letter
request. -/
theorem C8_contains_greedy_blank_fallback (a b : Letter)
    (ha : a ≠ blankLetter) (hb : b ≠ blankLetter) :
    Rack.contains [a, blankLetter] [a, a] = true ∧
    Rack.contains [a, blankLetter] [a, b] = true ∧
    (∀ l1 l2 : Letter, Rack.contains [blankLetter, blankLetter] [l1, l2] = true) := by
  have h1 : Rack.takeTile [a, blankLetter] a = some [blankLetter] := by
    simp [Rack.takeTile]
  have h2a : Rack.takeTile [blankLetter] a = some [] := by
    simp [Rack.takeTile, ha]
  have h2b : Rack.takeTile [blankLetter] b = some [] := by
    simp [Rack.takeTile, hb]
  refine ⟨?_, ?_, ?_⟩
  · simp [Rack.contains, Rack.unload, h1, h2a]
  · simp [Rack.contains, Rack.unload, h1, h2b]
  · intro l1 l2
    have g1 : Rack.takeTile [blankLetter, blankLetter] l1 = some [blankLetter] := by
      by_cases hl : l1 = blankLetter
      · subst hl; simp [Rack.takeTile]
      · simp [Rack.takeTile, hl]
    have g2 : Rack.takeTile [blankLetter] l2 = some [] := by
      by_cases hl : l2 = blankLetter
      · subst hl; simp [Rack.takeTile]
      · simp [Rack.takeTile, hl]
    simp [Rack.contains, Rack.unload, g1, g2]

/-- Witness for C8 at the concrete letters `a = 1`, `b = 2`. -/
theorem C8_contains_greedy_blank_fallback_witness :
    Rack.contains [1, blankLetter] [1, 1] = true ∧
    Rack.contains [1, blankLetter] [1, 2] = true ∧
    (∀ l1 l2 : Letter, Rack.contains [blankLetter, blankLetter] [l1, l2] = true) :=
  C8_contains_greedy_blank_fallback 1 2 (by decide) (by decide)

/-- C9 counterexample: `unload` may consume a blank in place of the
requested letter, and `load` then appends the letter itself, not the
blank.  A rack holding exactly one blank unloads `[1]` successfully
(blank fallback), leaving the rack empty; re-loading `[1]` yields a rack
holding the letter 1, which is not the original multiset `{blank}`. -/
theorem C9_unload_load_counterexample :
    Rack.unload [blankLetter] [1] = some [] ∧
    Rack.load ([] : List Letter) [1] = [1] ∧
    ¬ (Rack.load ([] : List Letter) [1]).Perm [blankLetter] := by
  refine ⟨by decide, rfl, fun hp => ?_⟩
  exact absurd (hp.count_eq blankLetter) (by decide)

/-- C9 amended: whenever the requested sequence is available on the rack
as a multiset (so the greedy scan consumes only exact matches and no
blank stands in for a different letter), `unload` succeeds and a
subsequent `load` of the same sequence restores the original multiset of
tiles. -/
theorem C9_unload_then_load_restores (rack seq : List Letter)
    (h : List.Subperm seq rack) :
    ∃ r', Rack.unload rack seq = some r' ∧ (Rack.load r' seq).Perm rack := by
  induction seq generalizing rack with
  | nil => exact ⟨rack, rfl, by simp [Rack.load]⟩
  | cons l rest ih =>
    have hmem : l ∈ rack := h.subset (List.mem_cons_self l rest)
    have hrest : List.Subperm rest (rack.erase l) := by
      have h1 : (l ::ₘ (↑rest : Multiset Letter)) ≤ ↑rack := by
        rw [Multiset.cons_coe, Multiset.coe_le]
        exact h
      rw [(Multiset.cons_erase (Multiset.mem_coe.mpr hmem)).symm,
        Multiset.cons_le_cons_iff, Multiset.coe_erase] at h1
      exact Multiset.coe_le.mp h1
    obtain ⟨r', hur, hperm⟩ := ih (rack.erase l) hrest
    have htake : Rack.takeTile rack l = some (rack.erase l) := by
      rw [Rack.takeTile, if_pos hmem]
    refine ⟨r', ?_, ?_⟩
    · simp only [Rack.unload, htake]
      exact hur
    · show (r' ++ l :: rest).Perm rack
      exact List.Perm.trans List.perm_middle
        (List.Perm.trans (List.Perm.cons l hperm) (List.perm_cons_erase hmem).symm)

/-- Witness for C9 (amended) at rack `[1, blank]` and sequence `[1]`. -/
theorem C9_unload_then_load_restores_witness :
    ∃ r', Rack.unload [1, blankLetter] [1] = some r' ∧
      (Rack.load r' [1]).Perm [1, blankLetter] :=
  C9_unload_then_load_restores [1, blankLetter] [1]
    ⟨[1], List.Perm.refl _, by simp⟩

/-- C10: for every valid source, move construction succeeds, produces the
same state as copy construction (so it is observationally identical; the
explicit length-validation block of the copy constructor is redundant for
a source the `length()` check already accepted), the destination's content
equals the source's and carries the terminator.  The C++ move constructor
(fixedstring.h lines 186-196) performs no store to the source, so the
embedding is a pure function of the source and the moved-from state is
untouched by construction.  `Rack`'s move construction delegates to the
tile buffer's (copy) assignment exactly as its copy construction does. -/
theorem C10_move_equals_copy (s : FLS) (h : s.len ≤ maxSize) :
    ∃ y, moveCtor s = some y ∧ copyCtor s = some y ∧
      y.len = s.len ∧ content y = content s ∧ sentinelOK y ∧
      (∀ t : FLS, Rack.moveCtorTiles t = Rack.copyCtorTiles t) := by
  have hls := length_eq_some h
  refine ⟨{ data := fun i => if i < s.len then s.data i else charZero
            len := s.len }, ?_, ?_, rfl, ?_, ?_, fun t => rfl⟩
  · simp only [moveCtor, hls]
  · have hno : ¬ (maxSize < s.len ∨ fixedstringCapacity < s.len) := by
      intro hcon
      rcases hcon with h1 | h1
      · exact absurd h1 (Nat.not_lt_of_le h)
      · exact absurd h1
          (Nat.not_lt_of_le (le_trans h (by decide)))
    simp only [copyCtor, hls]
    rw [if_neg hno]
  · refine List.map_congr_left fun i hi => ?_
    rw [List.mem_range] at hi
    simp [hi]
  · simp [sentinelOK]

/-- Witness for C10 at the full valid buffer. -/
theorem C10_move_equals_copy_witness :
    ∃ y, moveCtor full39 = some y ∧ copyCtor full39 = some y ∧
      y.len = full39.len ∧ content y = content full39 ∧ sentinelOK y ∧
      (∀ t : FLS, Rack.moveCtorTiles t = Rack.copyCtorTiles t) :=
  C10_move_equals_copy full39 (by decide)

/-- Witness for C7 at the full buffer and position 0. -/
theorem C7_erase_shifts_left_witness :
    (FLS.erase full39 0).len = full39.len - 1 ∧
    FLS.length (FLS.erase full39 0) = some (full39.len - 1) ∧
    (∀ j, j < 0 → (FLS.erase full39 0).data j = full39.data j) ∧
    (∀ j, 0 ≤ j → j < full39.len - 1 →
      (FLS.erase full39 0).data j = full39.data (j + 1)) ∧
    content (FLS.erase full39 0) =
      (content full39).take 0 ++ (content full39).drop 1 :=
  C7_erase_shifts_left full39 0 (by decide) (by decide)

end Quackle
